import Mathlib

/-!
Verification of the Ahab docker-compose generator
(`scripts/generate-docker-compose.py`): module loading, dependency
resolution, service synthesis, network/volume aggregation and manifest
assembly, shallowly embedded as executable Lean definitions.
-/

namespace Ahab

/-! ### Python dict model

A Python dict is modelled as an association list with unique keys in
insertion order.  `dictInsert` is `d[k] = v` (replace in place, else
append); `dictUpdate` is `d.update(u)`. -/

def alistGet {α : Type} : List (String × α) → String → Option α
  | [], _ => none
  | p :: rest, k => if p.1 = k then some p.2 else alistGet rest k

def dictKeys (d : List (String × String)) : List String :=
  d.map Prod.fst

def dictInsert : List (String × String) → String → String → List (String × String)
  | [], k, v => [(k, v)]
  | p :: rest, k, v => if p.1 = k then (k, v) :: rest else p :: dictInsert rest k v

def dictUpdate (d u : List (String × String)) : List (String × String) :=
  u.foldl (fun acc p => dictInsert acc p.1 p.2) d

/-- Right-biased lookup: value of the last binding of a key in an update
list.  Used to describe the result of `dictUpdate`. -/
def rlookup : List (String × String) → String → Option String
  | [], _ => none
  | p :: rest, k =>
    match rlookup rest k with
    | some v => some v
    | none => if p.1 = k then some p.2 else none

/-! ### Data model: module descriptors (module.yml) -/

structure ResourcePair where
  cpus : String
  memory : String
deriving DecidableEq

structure ResourcesConfig where
  limits : Option ResourcePair
  reservations : Option ResourcePair
deriving DecidableEq

/-- The nested `docker:` mapping of a module descriptor. -/
structure DockerConfig where
  image : Option String
  container_name : Option String
  restart : Option String
  ports : Option (List String)
  volumes : Option (List String)
  environment : List (String × String)
  networks : Option (List String)
  resources : Option ResourcesConfig
deriving DecidableEq

/-- The `dependencies` field as parsed from YAML: either a proper list or
some non-list value (which `get_dependencies` coerces to the empty list). -/
inductive DepsField where
  | list (deps : List String)
  | nonList
deriving DecidableEq

/-- A parsed module descriptor (top level of module.yml). -/
structure ModuleData where
  version : Option String
  description : Option String
  dependencies : Option DepsField
  networks : Option (List String)
  volumes : Option (List String)
  docker : Option DockerConfig
deriving DecidableEq

def emptyDockerConfig : DockerConfig :=
  { image := none, container_name := none, restart := none, ports := none,
    volumes := none, environment := [], networks := none, resources := none }

/-- The docker sub-mapping of a descriptor, defaulting to empty. -/
def dockerOf (m : ModuleData) : DockerConfig :=
  m.docker.getD emptyDockerConfig

/-- `ModuleLoader.get_dependencies`: the declared dependency list, with a
non-list value coerced to `[]`. -/
def getDeps (m : ModuleData) : List String :=
  match m.dependencies with
  | some (DepsField.list l) => l
  | _ => []

/-- `ModuleLoader.modules`: mapping from module name to loaded descriptor. -/
abbrev Registry := List (String × ModuleData)

def lookupMod (reg : Registry) (name : String) : Option ModuleData :=
  alistGet reg name

def regNames (reg : Registry) : List String :=
  reg.map Prod.fst

/-! ### Module loading (`ModuleLoader`)

A module directory on disk holds, per module name, either a descriptor
that parses (`parsed`) or one that fails to parse (`malformed`, carrying
the error text of the parser). -/

inductive RawDescriptor where
  | parsed (m : ModuleData)
  | malformed (msg : String)
deriving DecidableEq

def parseDescriptor : RawDescriptor → Except String ModuleData
  | RawDescriptor.parsed m => Except.ok m
  | RawDescriptor.malformed msg => Except.error msg

/-- `ModuleLoader.load_module`: load one module by name, failing if absent
or unparsable. -/
def load_module (store : List (String × RawDescriptor)) (name : String) :
    Except String ModuleData :=
  match alistGet store name with
  | none => Except.error ("Module " ++ name ++ " not found")
  | some raw => parseDescriptor raw

/-- `ModuleLoader.load_all_modules`: load every available module, in
directory-scan order; the first parse failure aborts the whole batch. -/
def load_all_modules : List (String × RawDescriptor) → Except String (List (String × ModuleData))
  | [] => Except.ok []
  | (name, raw) :: rest =>
    match parseDescriptor raw with
    | Except.error e => Except.error e
    | Except.ok m =>
      match load_all_modules rest with
      | Except.error e => Except.error e
      | Except.ok ms => Except.ok ((name, m) :: ms)

/-! ### Dependency resolution (`ModuleLoader.resolve_dependencies`)

The Python code is a recursive depth-first traversal: skip a name already
in `seen`, otherwise mark it seen, recurse into its declared dependencies
in order, then append the name to `resolved`.  It is embedded as a
structurally recursive worklist function with a fuel parameter; the fuel
is an artifact of the embedding and `resolveFuel` below always suffices
(proved in the theorems). -/

structure RState where
  seen : List String
  res : List String
deriving DecidableEq

def resolveMany (disk : Registry) : Nat → List String → RState → Except String RState
  | 0, l, st =>
    match l with
    | [] => Except.ok st
    | _ :: _ => Except.error ("out of fuel")
  | _ + 1, [], st => Except.ok st
  | f + 1, name :: rest, st =>
    if name ∈ st.seen then
      resolveMany disk f rest st
    else
      match lookupMod disk name with
      | none => Except.error ("Module " ++ name ++ " not found")
      | some m =>
        match resolveMany disk f (getDeps m) ⟨name :: st.seen, st.res⟩ with
        | Except.error e => Except.error e
        | Except.ok st2 => resolveMany disk f rest ⟨st2.seen, st2.res ++ [name]⟩

/-- Total processing weight of the modules of `disk` not yet seen; an
upper bound on the work the traversal can still create. -/
def pendWeight (disk : Registry) (seen : List String) : Nat :=
  (disk.map (fun p => if p.1 ∈ seen then 0 else 1 + (getDeps p.2).length)).sum

def resolveFuel (disk : Registry) (modules : List String) : Nat :=
  modules.length + pendWeight disk [] + 1

def resolve_dependencies (disk : Registry) (modules : List String) :
    Except String (List String) :=
  match resolveMany disk (resolveFuel disk modules) modules ⟨[], []⟩ with
  | Except.error e => Except.error e
  | Except.ok st => Except.ok st.res

/-! ### Service synthesis (`DockerComposeGenerator`) -/

/-- `generate_service_discovery_env`: starts from the declared environment
map and applies the fixed service-discovery update rules keyed on the
module name and on which peer modules are loaded. -/
def generate_service_discovery_env (reg : Registry) (module_name : String)
    (base_env : List (String × String)) : List (String × String) :=
  let env1 := base_env
  let env2 :=
    if (module_name = "php" ∨ module_name = "apache") ∧ "mysql" ∈ regNames reg then
      dictUpdate env1 [("DB_HOST", "ahab_mysql"), ("DB_PORT", "3306"),
        ("DB_NAME", "$\x7bMYSQL_DATABASE:-webapp\x7d"),
        ("DB_USER", "$\x7bMYSQL_USER:-webapp\x7d"),
        ("DB_PASSWORD", "$\x7bMYSQL_PASSWORD:-webapp123\x7d")]
    else env1
  let env3 :=
    if (module_name = "php" ∨ module_name = "apache") ∧ "redis" ∈ regNames reg then
      dictUpdate env2 [("REDIS_HOST", "ahab_redis"), ("REDIS_PORT", "6379")]
    else env2
  let env4 :=
    if module_name = "nginx" ∧ "php" ∈ regNames reg then
      dictUpdate env3 [("PHP_UPSTREAM", "ahab_php:80")]
    else env3
  let env5 :=
    if module_name = "nginx" ∧ "apache" ∈ regNames reg then
      dictUpdate env4 [("APACHE_UPSTREAM", "ahab_apache:80")]
    else env4
  env5

structure DeployResources where
  limits : ResourcePair
  reservations : ResourcePair
deriving DecidableEq

structure Service where
  image : String
  container_name : Option String
  restart : Option String
  ports : Option (List String)
  volumes : Option (List String)
  environment : Option (List (String × String))
  networks : Option (List String)
  depends_on : Option (List String)
  security_opt : List String
  cap_drop : List String
  cap_add : Option (List String)
  deploy : DeployResources
  labels : List (String × String)
deriving DecidableEq

def default_limits : ResourcePair := { cpus := "0.5", memory := "512M" }

def default_reservations : ResourcePair := { cpus := "0.25", memory := "256M" }

/-- The service record synthesized for a loaded module with image `img`
(the successful branch of `generate_service`). -/
def synthService (reg : Registry) (module_name : String) (m : ModuleData)
    (img : String) : Service :=
  let docker_config := dockerOf m
  let env_vars := docker_config.environment
  let service_env := generate_service_discovery_env reg module_name env_vars
  let deps := getDeps m
  let limits :=
    match docker_config.resources with
    | some r => r.limits.getD default_limits
    | none => default_limits
  let reservations :=
    match docker_config.resources with
    | some r => r.reservations.getD default_reservations
    | none => default_reservations
  { image := img
    container_name := docker_config.container_name
    restart := docker_config.restart
    ports := docker_config.ports
    volumes := docker_config.volumes
    environment := if service_env.isEmpty then none else some service_env
    networks := docker_config.networks
    depends_on := if deps.isEmpty then none else some deps
    security_opt := ["no-new-privileges:true"]
    cap_drop := ["ALL"]
    cap_add :=
      if module_name = "apache" ∨ module_name = "nginx" ∨ docker_config.ports.isSome then
        some ["NET_BIND_SERVICE", "SETUID", "SETGID", "DAC_OVERRIDE"]
      else none
    deploy := { limits := limits, reservations := reservations }
    labels := [("com.ahab.module", module_name),
               ("com.ahab.version", m.version.getD ("1.0.0")),
               ("com.ahab.description", m.description.getD ("")),
               ("com.ahab.stig-compliant", "true")] }

/-- `generate_service`: synthesize one service from a loaded module. -/
def generate_service (reg : Registry) (module_name : String) : Except String Service :=
  match lookupMod reg module_name with
  | none => Except.error ("Module " ++ module_name ++ " not loaded")
  | some m =>
    match (dockerOf m).image with
    | none =>
      Except.error ("Module " ++ module_name ++ " missing required docker.image field")
    | some img => Except.ok (synthService reg module_name m img)

/-! ### Network and volume aggregation -/

/-- Set-union of name lists, modelled as first-occurrence deduplication. -/
def addUnique (acc : List String) (xs : List String) : List String :=
  xs.foldl (fun a x => if x ∈ a then a else a ++ [x]) acc

structure NetworkDef where
  driver : String
  name : String
  labels : List (String × String)
deriving DecidableEq

structure VolumeDef where
  driver : String
  labels : List (String × String)
deriving DecidableEq

def networkLabels : List (String × String) :=
  [("com.ahab.network", "true"), ("com.ahab.created", "auto-generated")]

def volumeLabels : List (String × String) :=
  [("com.ahab.volume", "true"), ("com.ahab.created", "auto-generated")]

/-- `generate_networks`: union of the `docker.networks` lists of all modules
plus the always-present `ahab_network`, each with a fixed bridge
definition. -/
def generate_networks (reg : Registry) (modules : List String) :
    List (String × NetworkDef) :=
  let collected := modules.foldl (fun acc n =>
    match lookupMod reg n with
    | some m => addUnique acc ((dockerOf m).networks.getD [])
    | none => acc) []
  let networks := addUnique collected ["ahab_network"]
  networks.map (fun n => (n, { driver := "bridge", name := n, labels := networkLabels }))

/-- `generate_volumes`: union of the top-level `volumes` lists of all modules,
each with a fixed local-driver definition. -/
def generate_volumes (reg : Registry) (modules : List String) :
    List (String × VolumeDef) :=
  let collected := modules.foldl (fun acc n =>
    match lookupMod reg n with
    | some m => addUnique acc (m.volumes.getD [])
    | none => acc) []
  collected.map (fun v => (v, { driver := "local", labels := volumeLabels }))

/-! ### Manifest assembly (`DockerComposeGenerator.generate`) -/

structure Compose where
  services : List (String × Service)
  networks : Option (List (String × NetworkDef))
  volumes : Option (List (String × VolumeDef))
deriving DecidableEq

/-- The loader cache after a successful resolution: exactly the resolved
modules, read from disk. -/
def loadedReg (disk : Registry) (order : List String) : Registry :=
  order.filterMap (fun n => (lookupMod disk n).map (fun m => (n, m)))

def buildServices (reg : Registry) : List String → Except String (List (String × Service))
  | [] => Except.ok []
  | n :: rest =>
    match generate_service reg n with
    | Except.error e => Except.error e
    | Except.ok s =>
      match buildServices reg rest with
      | Except.error e => Except.error e
      | Except.ok restS => Except.ok ((n, s) :: restS)

/-- `generate`: resolve, synthesize every service in resolution order,
aggregate networks and volumes, elide empty sections. -/
def generate (disk : Registry) (requested : List String) : Except String Compose :=
  match resolve_dependencies disk requested with
  | Except.error e => Except.error e
  | Except.ok order =>
    let reg := loadedReg disk order
    match buildServices reg order with
    | Except.error e => Except.error e
    | Except.ok services =>
      let networks := generate_networks reg order
      let volumes := generate_volumes reg order
      Except.ok
        { services := services
          networks := if networks.isEmpty then none else some networks
          volumes := if volumes.isEmpty then none else some volumes }

/-- The generate-then-save control flow of `main`: the manifest file is
written only after `generate` returns successfully.  The second component
is the list of files written during the run. -/
def runPipeline (disk : Registry) (requested : List String) (output_file : String) :
    Except String Compose × List (String × Compose) :=
  match generate disk requested with
  | Except.error e => (Except.error e, [])
  | Except.ok c => (Except.ok c, [(output_file, c)])

/-! ### Derived-update view of the environment linker

`derivedList reg name` is the concatenation of the update lists the
linker applies for module `name` given the loaded set `reg`; the linker
is exactly `dictUpdate base (derivedList reg name)`. -/

def derivedList (reg : Registry) (module_name : String) : List (String × String) :=
  (if (module_name = "php" ∨ module_name = "apache") ∧ "mysql" ∈ regNames reg then
      [("DB_HOST", "ahab_mysql"), ("DB_PORT", "3306"),
       ("DB_NAME", "$\x7bMYSQL_DATABASE:-webapp\x7d"),
       ("DB_USER", "$\x7bMYSQL_USER:-webapp\x7d"),
       ("DB_PASSWORD", "$\x7bMYSQL_PASSWORD:-webapp123\x7d")]
    else []) ++
  (if (module_name = "php" ∨ module_name = "apache") ∧ "redis" ∈ regNames reg then
      [("REDIS_HOST", "ahab_redis"), ("REDIS_PORT", "6379")]
    else []) ++
  (if module_name = "nginx" ∧ "php" ∈ regNames reg then
      [("PHP_UPSTREAM", "ahab_php:80")]
    else []) ++
  (if module_name = "nginx" ∧ "apache" ∈ regNames reg then
      [("APACHE_UPSTREAM", "ahab_apache:80")]
    else [])

/-- Erase the top-level `networks` field of a descriptor (used to state
that network aggregation never reads it). -/
def eraseTopNetworks (m : ModuleData) : ModuleData :=
  { m with networks := none }

/-! ### Relational definitions for the resolution proofs -/

/-- One dependency edge: module `a` is loadable and declares `b`. -/
def resStep (disk : Registry) (a b : String) : Prop :=
  ∃ m, lookupMod disk a = some m ∧ b ∈ getDeps m

/-- The declared dependencies of a module name, per its descriptor. -/
def depsName (disk : Registry) (n : String) : List String :=
  match lookupMod disk n with
  | some m => getDeps m
  | none => []

/-- No module name reaches itself through dependency edges. -/
def Acyclic (disk : Registry) : Prop :=
  ∀ a, ¬ Relation.TransGen (resStep disk) a a

/-- Every declared dependency of a listed module appears strictly earlier
in the list. -/
def DepsBefore (disk : Registry) (res : List String) : Prop :=
  ∀ pre m post, res = pre ++ m :: post → ∀ d ∈ depsName disk m, d ∈ pre

/-- State invariant of the traversal. -/
structure StInv (disk : Registry) (st : RState) : Prop where
  nodup : st.res.Nodup
  res_seen : ∀ x ∈ st.res, x ∈ st.seen
  closed : ∀ m ∈ st.res, ∀ d ∈ depsName disk m, d ∈ st.seen

/-- Postcondition bundle of a successful `resolveMany` run with worklist
`srcs` from state `st` to state `st2`. -/
structure BPost (disk : Registry) (srcs : List String) (st st2 : RState) : Prop where
  res_mono : ∃ r, st2.res = st.res ++ r ∧ ∀ x ∈ r, x ∉ st.seen ∧ x ∈ st2.seen
  seen_mono : ∀ x ∈ st.seen, x ∈ st2.seen
  srcs_seen : ∀ n ∈ srcs, n ∈ st2.seen
  inprog : ∀ x, (x ∈ st2.seen ∧ x ∉ st2.res) ↔ (x ∈ st.seen ∧ x ∉ st.res)
  res_found : ∀ x ∈ st2.res, x ∈ st.res ∨ ∃ mo, lookupMod disk x = some mo
  seen_reach : ∀ x ∈ st2.seen,
    x ∈ st.seen ∨ ∃ n ∈ srcs, Relation.ReflTransGen (resStep disk) n x
  inv_pres : StInv disk st → StInv disk st2

/-! ### Concrete fixtures used by witnesses and counterexamples -/

/-- A minimal descriptor with an image and a dependency list. -/
def simpleModule (img : String) (deps : List String) : ModuleData :=
  { version := none, description := none, dependencies := some (DepsField.list deps),
    networks := none, volumes := none,
    docker := some { emptyDockerConfig with image := some img } }

/-- A php module that itself declares `DB_HOST` in its environment. -/
def phpModC1 : ModuleData :=
  { version := none, description := none, dependencies := some (DepsField.list []),
    networks := none, volumes := none,
    docker := some { emptyDockerConfig with
      image := some ("php:8.2-apache")
      environment := [("DB_HOST", "db.internal"), ("APP_MODE", "prod")] } }

def regC1 : Registry :=
  [("php", phpModC1), ("mysql", simpleModule ("mysql:8.0") [])]

/-- A descriptor that parses but has no `docker.image`. -/
def webModC2 : ModuleData :=
  { version := some ("2.0"), description := none, dependencies := some (DepsField.list []),
    networks := none, volumes := none,
    docker := some { emptyDockerConfig with container_name := some ("ahab_web") } }

def storeC2 : List (String × RawDescriptor) :=
  [("web", RawDescriptor.parsed webModC2)]

/-- The worked end-to-end example of the spec: web, app -> db, db. -/
def diskW3 : Registry :=
  [("web", simpleModule ("httpd:2.4") []),
   ("app", simpleModule ("app:1.0") ["db"]),
   ("db", simpleModule ("mysql:8.0") [])]

/-- A two-module dependency cycle. -/
def diskW4 : Registry :=
  [("a", simpleModule ("a:1") ["b"]), ("b", simpleModule ("b:1") ["a"])]

/-- A descriptor with a dependency but no docker section at all. -/
def brokenModW5 : ModuleData :=
  { version := none, description := none,
    dependencies := some (DepsField.list ["db"]),
    networks := none, volumes := none, docker := none }

/-- A set whose `broken` module lacks `docker.image`. -/
def diskW5 : Registry :=
  [("broken", brokenModW5), ("db", simpleModule ("mysql:8.0") [])]

/-- A module declaring a port, for the capability heuristic. -/
def portModW7 : ModuleData :=
  { version := none, description := none, dependencies := some (DepsField.list []),
    networks := none, volumes := none,
    docker := some { emptyDockerConfig with
      image := some ("redis:7"), ports := some ["6379:6379"] } }

def regW7 : Registry := [("cache", portModW7)]

/-- Two one-module registries whose descriptors differ only in the
top-level `networks` field. -/
def modW10a : ModuleData :=
  { version := none, description := none, dependencies := some (DepsField.list []),
    networks := some ["declared_net_one"], volumes := some ["data_vol"],
    docker := some { emptyDockerConfig with
      image := some ("svc:1"), networks := some ["docker_net"] } }

def modW10b : ModuleData :=
  { modW10a with networks := some ["declared_net_two"] }

def regW10a : Registry := [("svc", modW10a)]

def regW10b : Registry := [("svc", modW10b)]

/-! ## Lemmas about the dict model -/

theorem alistGet_dictInsert (d : List (String × String)) (k v k2 : String) :
    alistGet (dictInsert d k v) k2 = if k = k2 then some v else alistGet d k2 := by
  induction d with
  | nil => simp [dictInsert, alistGet]
  | cons p rest ih =>
    by_cases h : p.1 = k
    · simp only [dictInsert, h, if_pos rfl, alistGet]
      by_cases h2 : k = k2 <;> simp [h2]
    · simp only [dictInsert, h, if_neg h, alistGet]
      by_cases h2 : p.1 = k2
      · have hne : ¬ k = k2 := fun he => h (he ▸ h2)
        simp [h2, hne]
      · simp [h2, ih]

theorem mem_dictKeys_iff (d : List (String × String)) (k : String) :
    k ∈ dictKeys d ↔ ∃ v, alistGet d k = some v := by
  induction d with
  | nil => simp [dictKeys, alistGet]
  | cons p rest ih =>
    by_cases h : p.1 = k
    · simp [dictKeys, alistGet, h]
    · simp only [dictKeys, List.map_cons, List.mem_cons, alistGet, if_neg h]
      constructor
      · intro hc
        rcases hc with hc | hc
        · exact absurd hc.symm h
        · exact (ih.1 (by simpa [dictKeys] using hc))
      · intro hv
        exact Or.inr (by simpa [dictKeys] using ih.2 hv)

theorem dictUpdate_cons (d : List (String × String)) (p : String × String)
    (u : List (String × String)) :
    dictUpdate d (p :: u) = dictUpdate (dictInsert d p.1 p.2) u := rfl

theorem dictUpdate_append (d u1 u2 : List (String × String)) :
    dictUpdate d (u1 ++ u2) = dictUpdate (dictUpdate d u1) u2 := by
  simp [dictUpdate, List.foldl_append]

theorem alistGet_dictUpdate (u d : List (String × String)) (k : String) :
    alistGet (dictUpdate d u) k =
      match rlookup u k with
      | some v => some v
      | none => alistGet d k := by
  induction u generalizing d with
  | nil => simp [dictUpdate, rlookup]
  | cons p rest ih =>
    rw [dictUpdate_cons, ih]
    cases hr : rlookup rest k with
    | some v => simp [rlookup, hr]
    | none =>
      simp only [rlookup, hr, alistGet_dictInsert]
      by_cases h : p.1 = k <;> simp [h]

theorem dictUpdate_ite (c : Prop) [Decidable c] (e u : List (String × String)) :
    (if c then dictUpdate e u else e) = dictUpdate e (if c then u else []) := by
  split <;> simp [dictUpdate]

/-! ## The environment linker as a single update -/

theorem gsde_eq (reg : Registry) (name : String) (base : List (String × String)) :
    generate_service_discovery_env reg name base = dictUpdate base (derivedList reg name) := by
  simp only [generate_service_discovery_env, derivedList, dictUpdate_ite, dictUpdate_append]

theorem gsde_get_derived (reg : Registry) (name : String) (base : List (String × String))
    (k : String) (hk : k ∈ dictKeys (generate_service_discovery_env reg name [])) :
    alistGet (generate_service_discovery_env reg name base) k
      = alistGet (generate_service_discovery_env reg name []) k := by
  rw [gsde_eq] at hk
  rw [gsde_eq reg name base, gsde_eq reg name ([])]
  obtain ⟨v, hv⟩ := (mem_dictKeys_iff _ _).1 hk
  rw [alistGet_dictUpdate] at hv
  rw [alistGet_dictUpdate, alistGet_dictUpdate]
  cases hr : rlookup (derivedList reg name) k with
  | none => rw [hr] at hv; simp [alistGet] at hv
  | some w => rfl

/-! ## Shape lemmas for `generate_service` -/

theorem generate_service_eq (reg : Registry) (name : String) (m : ModuleData) (img : String)
    (hm : lookupMod reg name = some m) (hi : (dockerOf m).image = some img) :
    generate_service reg name = Except.ok (synthService reg name m img) := by
  simp only [generate_service, hm, hi]

theorem generate_service_missing_image (reg : Registry) (name : String) (m : ModuleData)
    (hm : lookupMod reg name = some m) (hi : (dockerOf m).image = none) :
    generate_service reg name
      = Except.error ("Module " ++ name ++ " missing required docker.image field") := by
  simp only [generate_service, hm, hi]

theorem generate_service_ok_cases (reg : Registry) (name : String) (s : Service)
    (hs : generate_service reg name = Except.ok s) :
    ∃ m img, lookupMod reg name = some m ∧ (dockerOf m).image = some img ∧
      s = synthService reg name m img := by
  cases hm : lookupMod reg name with
  | none => simp [generate_service, hm] at hs
  | some m =>
    cases hi : (dockerOf m).image with
    | none => simp [generate_service, hm, hi] at hs
    | some img =>
      rw [generate_service_eq reg name m img hm hi] at hs
      exact ⟨m, img, rfl, hi, (Except.ok.inj hs).symm⟩

/-! ## Claim C1 -/

/-- Claim C1 (corrected): for every key of the derived service-discovery
map, the environment of the synthesized service carries the derived value,
regardless of what the module itself declared for that key.  Derived
variables overwrite declared ones on key collision. -/
theorem c1_derived_overrides_declared (reg : Registry) (name : String)
    (s : Service) (k : String)
    (hs : generate_service reg name = Except.ok s)
    (hk : k ∈ dictKeys (generate_service_discovery_env reg name [])) :
    ∃ env, s.environment = some env ∧
      alistGet env k = alistGet (generate_service_discovery_env reg name []) k := by
  obtain ⟨v, hv⟩ := (mem_dictKeys_iff _ _).1 hk
  obtain ⟨m, img, hm, hi, hsy⟩ := generate_service_ok_cases reg name s hs
  subst hsy
  have hval := gsde_get_derived reg name ((dockerOf m).environment) k hk
  have hne : (generate_service_discovery_env reg name ((dockerOf m).environment)).isEmpty
      = false := by
    cases he : generate_service_discovery_env reg name ((dockerOf m).environment) with
    | nil =>
      rw [he] at hval
      rw [hv] at hval
      exact absurd hval (by simp [alistGet])
    | cons q qs => rfl
  refine ⟨generate_service_discovery_env reg name ((dockerOf m).environment), ?_, hval⟩
  simp only [synthService, hne]
  simp

/-- Claim C1 witness: at the concrete fixture the theorem applies, and its
hypotheses hold by evaluation. -/
theorem c1_derived_overrides_declared_witness :
    ∃ env, (synthService regC1 ("php") phpModC1 ("php:8.2-apache")).environment = some env ∧
      alistGet env ("DB_HOST")
        = alistGet (generate_service_discovery_env regC1 ("php") []) ("DB_HOST") :=
  c1_derived_overrides_declared regC1 ("php")
    (synthService regC1 ("php") phpModC1 ("php:8.2-apache")) ("DB_HOST")
    (by rfl) (by decide)

/-- Claim C1 counterexample: the php module declares `DB_HOST` as
`db.internal`, the key is also a derived service-discovery variable, and
the synthesized environment holds the derived value `ahab_mysql`, not the
declared one. -/
theorem c1_counterexample :
    alistGet ((dockerOf phpModC1).environment) ("DB_HOST") = some ("db.internal") ∧
    ("DB_HOST") ∈ dictKeys (generate_service_discovery_env regC1 ("php") []) ∧
    (generate_service regC1 ("php")).map
        (fun s => s.environment.map (fun e => alistGet e ("DB_HOST")))
      = Except.ok (some (some ("ahab_mysql"))) ∧
    ("ahab_mysql" : String) ≠ "db.internal" :=
  ⟨rfl, by decide, rfl, by decide⟩

/-! ## Claim C2 -/

/-- Claim C2 counterexample: a store whose only module parses but lacks
`docker.image`; `load_all_modules` nevertheless succeeds, so a missing
image is not a load-time error. -/
theorem c2_counterexample :
    load_all_modules storeC2 = Except.ok [("web", webModC2)] ∧
    (dockerOf webModC2).image = none :=
  ⟨rfl, rfl⟩

/-- Claim C2 (corrected): `load_all_modules` aborts with the parse error
of the first malformed descriptor and returns no partial mapping, and
succeeds (over exactly the scanned names) whenever every descriptor
parses — even when `docker.image` is missing; the missing-image check is
deferred to service synthesis, where it is a fatal error naming the
module. -/
theorem c2_load_errors :
    (∀ store : List (String × RawDescriptor),
       (∀ p ∈ store, ∃ m, p.2 = RawDescriptor.parsed m) →
       ∃ ms, load_all_modules store = Except.ok ms ∧ ms.map Prod.fst = store.map Prod.fst)
    ∧ (∀ (front : List (String × RawDescriptor)) (name msg : String)
         (rest : List (String × RawDescriptor)),
       (∀ p ∈ front, ∃ m, p.2 = RawDescriptor.parsed m) →
       load_all_modules (front ++ (name, RawDescriptor.malformed msg) :: rest)
         = Except.error msg)
    ∧ (∀ (reg : Registry) (name : String) (m : ModuleData),
       lookupMod reg name = some m → (dockerOf m).image = none →
       generate_service reg name
         = Except.error ("Module " ++ name ++ " missing required docker.image field")) := by
  refine ⟨?_, ?_, ?_⟩
  · intro store
    induction store with
    | nil => exact fun _ => ⟨[], rfl, rfl⟩
    | cons q rest ih =>
      intro hp
      obtain ⟨qn, qraw⟩ := q
      obtain ⟨m, hm⟩ := hp (qn, qraw) (List.mem_cons_self _ _)
      have hm2 : qraw = RawDescriptor.parsed m := hm
      subst hm2
      obtain ⟨ms, hms, hkeys⟩ := ih (fun p hp2 => hp p (List.mem_cons_of_mem _ hp2))
      refine ⟨(qn, m) :: ms, ?_, ?_⟩
      · simp [load_all_modules, parseDescriptor, hms]
      · simp [hkeys]
  · intro front name msg rest
    induction front with
    | nil =>
      intro _
      simp [load_all_modules, parseDescriptor]
    | cons q front2 ih =>
      intro hp
      obtain ⟨qn, qraw⟩ := q
      obtain ⟨m, hm⟩ := hp (qn, qraw) (List.mem_cons_self _ _)
      have hm2 : qraw = RawDescriptor.parsed m := hm
      subst hm2
      have hrec := ih (fun p hp2 => hp p (List.mem_cons_of_mem _ hp2))
      simp [load_all_modules, parseDescriptor, hrec]
  · intro reg name m hm hi
    exact generate_service_missing_image reg name m hm hi

/-- Claim C2 witness: the corrected statement applied at concrete stores
and at the concrete missing-image module of `diskW5`. -/
theorem c2_load_errors_witness :
    (∃ ms, load_all_modules [("db", RawDescriptor.parsed (simpleModule ("mysql:8.0") []))]
        = Except.ok ms ∧
        ms.map Prod.fst
          = [("db", RawDescriptor.parsed (simpleModule ("mysql:8.0") []))].map Prod.fst)
    ∧ load_all_modules [("bad", RawDescriptor.malformed ("mapping values are not allowed here"))]
        = Except.error ("mapping values are not allowed here")
    ∧ generate_service diskW5 ("broken")
        = Except.error ("Module " ++ "broken" ++ " missing required docker.image field") :=
  ⟨c2_load_errors.1 _ (by intro p hp; simp at hp; subst hp; exact ⟨_, rfl⟩),
   c2_load_errors.2.1 [] ("bad") ("mapping values are not allowed here") []
     (by intro p hp; cases hp),
   c2_load_errors.2.2 diskW5 ("broken") _ rfl rfl⟩

/-! ## Claim C6 -/

/-- Claim C6: every successfully synthesized service carries the fixed
baseline hardening: `security_opt = ["no-new-privileges:true"]` and
`cap_drop = ["ALL"]`, unconditionally. -/
theorem c6_baseline_hardening (reg : Registry) (name : String) (s : Service)
    (hs : generate_service reg name = Except.ok s) :
    s.security_opt = ["no-new-privileges:true"] ∧ s.cap_drop = ["ALL"] := by
  obtain ⟨m, img, hm, hi, hsy⟩ := generate_service_ok_cases reg name s hs
  subst hsy
  exact ⟨rfl, rfl⟩

/-- Claim C6 witness. -/
theorem c6_baseline_hardening_witness :
    (synthService diskW3 ("db") (simpleModule ("mysql:8.0") []) ("mysql:8.0")).security_opt
        = ["no-new-privileges:true"] ∧
    (synthService diskW3 ("db") (simpleModule ("mysql:8.0") []) ("mysql:8.0")).cap_drop
        = ["ALL"] :=
  c6_baseline_hardening diskW3 ("db") _ (by rfl)

/-! ## Claim C7 -/

/-- Claim C7: `cap_add` equals the fixed four-capability list exactly when
the module name is `apache` or `nginx` or the docker section declares a
`ports` field; otherwise it is absent. -/
theorem c7_cap_add_heuristic (reg : Registry) (name : String) (m : ModuleData) (s : Service)
    (hm : lookupMod reg name = some m)
    (hs : generate_service reg name = Except.ok s) :
    s.cap_add = if name = "apache" ∨ name = "nginx" ∨ (dockerOf m).ports.isSome
                then some ["NET_BIND_SERVICE", "SETUID", "SETGID", "DAC_OVERRIDE"]
                else none := by
  obtain ⟨m2, img, hm2, hi, hsy⟩ := generate_service_ok_cases reg name s hs
  have hmm : m2 = m := by rw [hm] at hm2; exact (Option.some.inj hm2).symm
  subst hmm
  subst hsy
  rfl

/-- Claim C7 witness: a plain `cache` module that declares a port gets the
four capabilities. -/
theorem c7_cap_add_heuristic_witness :
    (synthService regW7 ("cache") portModW7 ("redis:7")).cap_add
      = if ("cache" : String) = "apache" ∨ ("cache" : String) = "nginx"
            ∨ (dockerOf portModW7).ports.isSome
        then some ["NET_BIND_SERVICE", "SETUID", "SETGID", "DAC_OVERRIDE"]
        else none :=
  c7_cap_add_heuristic regW7 ("cache") portModW7 _ rfl (by rfl)

/-! ## Claim C10 -/

theorem foldl_networks_congr (reg1 reg2 : Registry)
    (h : ∀ n, (lookupMod reg1 n).map eraseTopNetworks = (lookupMod reg2 n).map eraseTopNetworks)
    (mods : List String) (acc : List String) :
    mods.foldl (fun acc n =>
      match lookupMod reg1 n with
      | some m => addUnique acc ((dockerOf m).networks.getD [])
      | none => acc) acc
    = mods.foldl (fun acc n =>
      match lookupMod reg2 n with
      | some m => addUnique acc ((dockerOf m).networks.getD [])
      | none => acc) acc := by
  induction mods generalizing acc with
  | nil => rfl
  | cons n rest ih =>
    simp only [List.foldl_cons]
    have hn := h n
    cases h1 : lookupMod reg1 n with
    | none =>
      cases h2 : lookupMod reg2 n with
      | none => exact ih acc
      | some m2 => rw [h1, h2] at hn; simp at hn
    | some m1 =>
      cases h2 : lookupMod reg2 n with
      | none => rw [h1, h2] at hn; simp at hn
      | some m2 =>
        rw [h1, h2] at hn
        simp only [Option.map_some'] at hn
        have hd : dockerOf m1 = dockerOf m2 := by
          have hdoc := congrArg ModuleData.docker (Option.some.inj hn)
          simp only [eraseTopNetworks] at hdoc
          simp only [dockerOf, hdoc]
        have e1 : (match some m1 with
            | some m => addUnique acc ((dockerOf m).networks.getD [])
            | none => acc) = addUnique acc ((dockerOf m1).networks.getD []) := rfl
        have e2 : (match some m2 with
            | some m => addUnique acc ((dockerOf m).networks.getD [])
            | none => acc) = addUnique acc ((dockerOf m2).networks.getD []) := rfl
        rw [e1, e2, hd]
        exact ih _

theorem foldl_volumes_congr (reg1 reg2 : Registry)
    (h : ∀ n, (lookupMod reg1 n).map ModuleData.volumes = (lookupMod reg2 n).map ModuleData.volumes)
    (mods : List String) (acc : List String) :
    mods.foldl (fun acc n =>
      match lookupMod reg1 n with
      | some m => addUnique acc (m.volumes.getD [])
      | none => acc) acc
    = mods.foldl (fun acc n =>
      match lookupMod reg2 n with
      | some m => addUnique acc (m.volumes.getD [])
      | none => acc) acc := by
  induction mods generalizing acc with
  | nil => rfl
  | cons n rest ih =>
    simp only [List.foldl_cons]
    have hn := h n
    cases h1 : lookupMod reg1 n with
    | none =>
      cases h2 : lookupMod reg2 n with
      | none => exact ih acc
      | some m2 => rw [h1, h2] at hn; simp at hn
    | some m1 =>
      cases h2 : lookupMod reg2 n with
      | none => rw [h1, h2] at hn; simp at hn
      | some m2 =>
        rw [h1, h2] at hn
        simp only [Option.map_some'] at hn
        have hv := Option.some.inj hn
        have e1 : (match some m1 with
            | some m => addUnique acc (m.volumes.getD [])
            | none => acc) = addUnique acc (m1.volumes.getD []) := rfl
        have e2 : (match some m2 with
            | some m => addUnique acc (m.volumes.getD [])
            | none => acc) = addUnique acc (m2.volumes.getD []) := rfl
        rw [e1, e2, hv]
        exact ih _

/-- Claim C10: network aggregation reads only the nested `docker.networks`
lists — two registries over the same names that differ only in the
top-level `networks` fields yield the same networks map — while volume
aggregation reads only the top-level `volumes` field. -/
theorem c10_aggregators_read_only_their_fields :
    (∀ (reg1 reg2 : Registry) (mods : List String),
       (∀ n, (lookupMod reg1 n).map eraseTopNetworks
           = (lookupMod reg2 n).map eraseTopNetworks) →
       generate_networks reg1 mods = generate_networks reg2 mods)
    ∧ (∀ (reg1 reg2 : Registry) (mods : List String),
       (∀ n, (lookupMod reg1 n).map ModuleData.volumes
           = (lookupMod reg2 n).map ModuleData.volumes) →
       generate_volumes reg1 mods = generate_volumes reg2 mods) := by
  constructor
  · intro reg1 reg2 mods h
    simp only [generate_networks]
    rw [foldl_networks_congr reg1 reg2 h mods []]
  · intro reg1 reg2 mods h
    simp only [generate_volumes]
    rw [foldl_volumes_congr reg1 reg2 h mods []]

/-- Claim C10 witness: two concrete registries differing only in the
top-level `networks` field produce identical networks and volumes maps. -/
theorem c10_aggregators_witness :
    generate_networks regW10a ["svc"] = generate_networks regW10b ["svc"] ∧
    generate_volumes regW10a ["svc"] = generate_volumes regW10b ["svc"] := by
  constructor
  · apply c10_aggregators_read_only_their_fields.1
    intro n
    simp only [regW10a, regW10b, lookupMod, alistGet]
    by_cases hn : ("svc" : String) = n
    · simp only [if_pos hn, Option.map_some']
      have : eraseTopNetworks modW10a = eraseTopNetworks modW10b := by decide
      rw [this]
    · simp [if_neg hn]
  · apply c10_aggregators_read_only_their_fields.2
    intro n
    simp only [regW10a, regW10b, lookupMod, alistGet]
    by_cases hn : ("svc" : String) = n
    · simp only [if_pos hn, Option.map_some']
      have : modW10a.volumes = modW10b.volumes := by decide
      rw [this]
    · simp [if_neg hn]

/-! ## Claim C9 -/

theorem addUnique_cons (acc : List String) (y : String) (ys : List String) :
    addUnique acc (y :: ys) = addUnique (if y ∈ acc then acc else acc ++ [y]) ys := rfl

theorem mem_addUnique (acc xs : List String) (x : String) :
    x ∈ addUnique acc xs ↔ x ∈ acc ∨ x ∈ xs := by
  induction xs generalizing acc with
  | nil => simp [addUnique]
  | cons y ys ih =>
    rw [addUnique_cons]
    by_cases hy : y ∈ acc
    · rw [if_pos hy, ih]
      constructor
      · rintro (h | h)
        · exact Or.inl h
        · exact Or.inr (List.mem_cons_of_mem y h)
      · rintro (h | h)
        · exact Or.inl h
        · rcases List.mem_cons.1 h with rfl | h2
          · exact Or.inl hy
          · exact Or.inr h2
    · rw [if_neg hy, ih]
      simp only [List.mem_append, List.mem_cons, List.mem_singleton]
      tauto

theorem alistGet_map_mk {α : Type} (l : List String) (f : String → α) (x : String)
    (hx : x ∈ l) :
    alistGet (l.map (fun n => (n, f n))) x = some (f x) := by
  induction l with
  | nil => cases hx
  | cons y ys ih =>
    simp only [List.map_cons, alistGet]
    by_cases hy : y = x
    · subst hy; simp
    · rcases List.mem_cons.1 hx with rfl | h2
      · exact absurd rfl hy
      · simp [hy, ih h2]

theorem generate_networks_lookup (reg : Registry) (mods : List String) :
    alistGet (generate_networks reg mods) ("ahab_network")
      = some { driver := "bridge", name := "ahab_network", labels := networkLabels } := by
  simp only [generate_networks]
  apply alistGet_map_mk
  exact (mem_addUnique _ _ _).2 (Or.inr (by simp))

theorem generate_networks_ne_nil (reg : Registry) (mods : List String) :
    generate_networks reg mods ≠ [] := by
  simp only [generate_networks]
  intro h
  rw [List.map_eq_nil_iff] at h
  have hm := (mem_addUnique
    (mods.foldl (fun acc n =>
      match lookupMod reg n with
      | some m => addUnique acc ((dockerOf m).networks.getD [])
      | none => acc) []) ["ahab_network"] ("ahab_network")).2 (Or.inr (by simp))
  rw [h] at hm
  cases hm

/-- Claim C9: the networks section of every generated manifest is present (never
elided) and contains the implicit shared `ahab_network` with the fixed
bridge-driver definition. -/
theorem c9_implicit_network (disk : Registry) (requested : List String) (c : Compose)
    (hc : generate disk requested = Except.ok c) :
    ∃ nets, c.networks = some nets ∧ nets ≠ [] ∧
      alistGet nets ("ahab_network")
        = some { driver := "bridge", name := "ahab_network", labels := networkLabels } := by
  unfold generate at hc
  cases hr : resolve_dependencies disk requested with
  | error e => rw [hr] at hc; simp at hc
  | ok order =>
    simp only [hr] at hc
    cases hb : buildServices (loadedReg disk order) order with
    | error e => simp only [hb] at hc; simp at hc
    | ok services =>
      simp only [hb, Except.ok.injEq] at hc
      subst hc
      have hne : (generate_networks (loadedReg disk order) order).isEmpty = false := by
        cases h2 : generate_networks (loadedReg disk order) order with
        | nil => exact absurd h2 (generate_networks_ne_nil _ _)
        | cons a l => rfl
      refine ⟨generate_networks (loadedReg disk order) order, ?_,
        generate_networks_ne_nil _ _, generate_networks_lookup _ _⟩
      simp [hne]

/-- Claim C9 witness: the worked example of the spec, where no module declares
any network, still gets `ahab_network`. -/
theorem c9_implicit_network_witness :
    ∃ c, generate diskW3 ["app", "web"] = Except.ok c ∧
      ∃ nets, c.networks = some nets ∧ nets ≠ [] ∧
        alistGet nets ("ahab_network")
          = some { driver := "bridge", name := "ahab_network", labels := networkLabels } := by
  cases hg : generate diskW3 ["app", "web"] with
  | error e =>
    have hok : (generate diskW3 ["app", "web"]).isOk = true := by rfl
    rw [hg] at hok
    simp [Except.isOk, Except.toBool] at hok
  | ok c => exact ⟨c, rfl, c9_implicit_network diskW3 ["app", "web"] c hg⟩

/-! ## Invariants of the dependency traversal -/

theorem resolveMany_succ_cons (disk : Registry) (f : Nat) (name : String)
    (rest : List String) (st : RState) :
    resolveMany disk (f + 1) (name :: rest) st =
      if name ∈ st.seen then
        resolveMany disk f rest st
      else
        match lookupMod disk name with
        | none => Except.error ("Module " ++ name ++ " not found")
        | some m =>
          match resolveMany disk f (getDeps m) ⟨name :: st.seen, st.res⟩ with
          | Except.error e => Except.error e
          | Except.ok st2 => resolveMany disk f rest ⟨st2.seen, st2.res ++ [name]⟩ := rfl

theorem bpost_nil (disk : Registry) (st : RState) : BPost disk [] st st where
  res_mono := ⟨[], by simp, by simp⟩
  seen_mono := fun _ hx => hx
  srcs_seen := fun n hn => absurd hn (List.not_mem_nil n)
  inprog := fun _ => Iff.rfl
  res_found := fun _ hx => Or.inl hx
  seen_reach := fun _ hx => Or.inl hx
  inv_pres := fun h => h

theorem bpost_holds (disk : Registry) (f : Nat) :
    ∀ (l : List String) (st st2 : RState),
      resolveMany disk f l st = Except.ok st2 → BPost disk l st st2 := by
  induction f with
  | zero =>
    intro l st st2 h
    cases l with
    | nil =>
      simp only [resolveMany, Except.ok.injEq] at h
      subst h
      exact bpost_nil disk st
    | cons a l2 => simp [resolveMany] at h
  | succ f ih =>
    intro l st st2 h
    cases l with
    | nil =>
      simp only [resolveMany, Except.ok.injEq] at h
      subst h
      exact bpost_nil disk st
    | cons name rest =>
      rw [resolveMany_succ_cons] at h
      by_cases hseen : name ∈ st.seen
      · rw [if_pos hseen] at h
        have hB := ih rest st st2 h
        exact
          { res_mono := hB.res_mono
            seen_mono := hB.seen_mono
            srcs_seen := by
              intro n hn
              rcases List.mem_cons.1 hn with rfl | hn2
              · exact hB.seen_mono n hseen
              · exact hB.srcs_seen n hn2
            inprog := hB.inprog
            res_found := hB.res_found
            seen_reach := by
              intro x hx
              rcases hB.seen_reach x hx with h1 | ⟨d, hd, hr⟩
              · exact Or.inl h1
              · exact Or.inr ⟨d, List.mem_cons_of_mem _ hd, hr⟩
            inv_pres := hB.inv_pres }
      · rw [if_neg hseen] at h
        cases hlk : lookupMod disk name with
        | none => simp only [hlk] at h; exact absurd h (by simp)
        | some m =>
          simp only [hlk] at h
          cases hd : resolveMany disk f (getDeps m) ⟨name :: st.seen, st.res⟩ with
          | error e => simp only [hd] at h; exact absurd h (by simp)
          | ok stMid =>
            simp only [hd] at h
            have hB1 := ih _ _ _ hd
            have hB2 := ih _ _ _ h
            obtain ⟨r1, hr1, hr1p⟩ := hB1.res_mono
            obtain ⟨r2, hr2, hr2p⟩ := hB2.res_mono
            refine
              { res_mono := ?_, seen_mono := ?_, srcs_seen := ?_, inprog := ?_,
                res_found := ?_, seen_reach := ?_, inv_pres := ?_ }
            · refine ⟨r1 ++ [name] ++ r2, ?_, ?_⟩
              · rw [hr2]
                show (stMid.res ++ [name]) ++ r2 = st.res ++ (r1 ++ [name] ++ r2)
                rw [hr1]
                simp [List.append_assoc]
              · intro x hx
                rcases List.mem_append.1 hx with hx1 | hx2
                · rcases List.mem_append.1 hx1 with hx3 | hx4
                  · obtain ⟨hnotin, hin⟩ := hr1p x hx3
                    refine ⟨fun hc => hnotin (List.mem_cons_of_mem _ hc), ?_⟩
                    exact hB2.seen_mono x hin
                  · rw [List.mem_singleton] at hx4
                    subst hx4
                    exact ⟨hseen,
                      hB2.seen_mono x (hB1.seen_mono x (List.mem_cons_self _ _))⟩
                · obtain ⟨hnotin, hin⟩ := hr2p x hx2
                  refine ⟨fun hc => ?_, hin⟩
                  exact hnotin (hB1.seen_mono x (List.mem_cons_of_mem _ hc))
            · intro x hx
              exact hB2.seen_mono x (hB1.seen_mono x (List.mem_cons_of_mem _ hx))
            · intro n hn
              rcases List.mem_cons.1 hn with rfl | hn2
              · exact hB2.seen_mono n (hB1.seen_mono n (List.mem_cons_self _ _))
              · exact hB2.srcs_seen n hn2
            · intro x
              rw [hB2.inprog x]
              constructor
              · rintro ⟨hxs, hxr⟩
                have hxr1 : x ∉ stMid.res := fun hc => hxr (List.mem_append_left _ hc)
                have hxname : x ≠ name := fun he => hxr (by simp [he])
                have hi1 := (hB1.inprog x).1 ⟨hxs, hxr1⟩
                rcases List.mem_cons.1 hi1.1 with rfl | hx2
                · exact absurd rfl hxname
                · exact ⟨hx2, hi1.2⟩
              · rintro ⟨hxs, hxr⟩
                have hxname : x ≠ name := fun he => hseen (he ▸ hxs)
                have hi1 := (hB1.inprog x).2 ⟨List.mem_cons_of_mem _ hxs, hxr⟩
                refine ⟨hi1.1, fun hc => ?_⟩
                rcases List.mem_append.1 hc with hc1 | hc2
                · exact hi1.2 hc1
                · exact hxname (by simpa using hc2)
            · intro x hx
              rcases hB2.res_found x hx with hx1 | hfound
              · rcases List.mem_append.1 hx1 with hx2 | hx3
                · rcases hB1.res_found x hx2 with hx4 | hfound2
                  · exact Or.inl hx4
                  · exact Or.inr hfound2
                · rw [List.mem_singleton] at hx3
                  subst hx3
                  exact Or.inr ⟨m, hlk⟩
              · exact Or.inr hfound
            · intro x hx
              rcases hB2.seen_reach x hx with hx1 | ⟨d, hd2, hrch⟩
              · rcases hB1.seen_reach x hx1 with hx2 | ⟨d, hdmem, hrch⟩
                · rcases List.mem_cons.1 hx2 with rfl | hx3
                  · exact Or.inr ⟨x, List.mem_cons_self _ _, Relation.ReflTransGen.refl⟩
                  · exact Or.inl hx3
                · exact Or.inr ⟨name, List.mem_cons_self _ _,
                    Relation.ReflTransGen.head ⟨m, hlk, hdmem⟩ hrch⟩
              · exact Or.inr ⟨d, List.mem_cons_of_mem _ hd2, hrch⟩
            · intro hI
              have hIA : StInv disk ⟨name :: st.seen, st.res⟩ :=
                { nodup := hI.nodup
                  res_seen := fun x hx => List.mem_cons_of_mem _ (hI.res_seen x hx)
                  closed := fun mm hmm d2 hd2 =>
                    List.mem_cons_of_mem _ (hI.closed mm hmm d2 hd2) }
              have hIMid := hB1.inv_pres hIA
              have hnameMid : name ∉ stMid.res := by
                have h1 := (hB1.inprog name).2
                  ⟨List.mem_cons_self _ _, fun hc => hseen (hI.res_seen name hc)⟩
                exact h1.2
              have hIB : StInv disk ⟨stMid.seen, stMid.res ++ [name]⟩ :=
                { nodup := by
                    refine List.Nodup.append hIMid.nodup (List.nodup_singleton name) ?_
                    intro x hx1 hx2
                    rw [List.mem_singleton] at hx2
                    subst hx2
                    exact hnameMid hx1
                  res_seen := by
                    intro x hx
                    rcases List.mem_append.1 hx with h1 | h2
                    · exact hIMid.res_seen x h1
                    · rw [List.mem_singleton] at h2
                      subst h2
                      exact hB1.seen_mono x (List.mem_cons_self _ _)
                  closed := by
                    intro mm hmm d2 hd2
                    rcases List.mem_append.1 hmm with h1 | h2
                    · exact hIMid.closed mm h1 d2 hd2
                    · rw [List.mem_singleton] at h2
                      subst h2
                      have hdeq : depsName disk mm = getDeps m := by
                        simp [depsName, hlk]
                      rw [hdeq] at hd2
                      exact hB1.srcs_seen d2 hd2 }
              exact hB2.inv_pres hIB

/-! ## Claim C4 -/

theorem lookup_isSome_of_mem (disk : Registry) (n : String) (hn : n ∈ regNames disk) :
    ∃ m, lookupMod disk n = some m := by
  induction disk with
  | nil => cases hn
  | cons p rest ih =>
    by_cases h : p.1 = n
    · exact ⟨p.2, by simp [lookupMod, alistGet, h]⟩
    · have h2 : n ∈ regNames rest := by
        have hc : regNames (p :: rest) = p.1 :: regNames rest := rfl
        rw [hc] at hn
        rcases List.mem_cons.1 hn with h3 | h3
        · exact absurd h3.symm h
        · exact h3
      obtain ⟨m, hm⟩ := ih h2
      exact ⟨m, by simpa [lookupMod, alistGet, h] using hm⟩

theorem lookup_mem (disk : Registry) (n : String) (m : ModuleData)
    (h : lookupMod disk n = some m) : (n, m) ∈ disk := by
  induction disk with
  | nil => cases h
  | cons p rest ih =>
    simp only [lookupMod, alistGet] at h
    by_cases hp : p.1 = n
    · rw [if_pos hp] at h
      have hpm : p = (n, m) := by
        obtain ⟨p1, p2⟩ := p
        simp only at hp h
        exact Prod.ext hp (Option.some.inj h)
      rw [← hpm]
      exact List.mem_cons_self _ _
    · rw [if_neg hp] at h
      exact List.mem_cons_of_mem _ (ih h)

theorem pendWeight_mono (disk : Registry) (s1 s2 : List String)
    (h : ∀ x ∈ s1, x ∈ s2) : pendWeight disk s2 ≤ pendWeight disk s1 := by
  induction disk with
  | nil => exact Nat.le_refl _
  | cons p rest ih =>
    simp only [pendWeight, List.map_cons, List.sum_cons] at ih ⊢
    have hterm : (if p.1 ∈ s2 then 0 else 1 + (getDeps p.2).length)
        ≤ (if p.1 ∈ s1 then 0 else 1 + (getDeps p.2).length) := by
      by_cases h1 : p.1 ∈ s1
      · rw [if_pos h1, if_pos (h p.1 h1)]
      · rw [if_neg h1]
        by_cases h2 : p.1 ∈ s2
        · rw [if_pos h2]; exact Nat.zero_le _
        · rw [if_neg h2]
    exact Nat.add_le_add hterm ih

theorem pendWeight_drop (disk : Registry) (seen : List String) (name : String)
    (m : ModuleData) (hlk : lookupMod disk name = some m) (hns : name ∉ seen) :
    pendWeight disk (name :: seen) + (1 + (getDeps m).length) ≤ pendWeight disk seen := by
  induction disk with
  | nil => cases hlk
  | cons p rest ih =>
    simp only [lookupMod, alistGet] at hlk ih
    by_cases hp : p.1 = name
    · rw [if_pos hp] at hlk
      have hm : p.2 = m := Option.some.inj hlk
      simp only [pendWeight, List.map_cons, List.sum_cons]
      rw [if_pos (by rw [hp]; exact List.mem_cons_self _ _)]
      rw [if_neg (by rw [hp]; exact hns)]
      rw [hm]
      have hmono := pendWeight_mono rest seen (name :: seen)
        (fun x hx => List.mem_cons_of_mem _ hx)
      simp only [pendWeight] at hmono
      omega
    · rw [if_neg hp] at hlk
      simp only [pendWeight, List.map_cons, List.sum_cons]
      have hiff : (p.1 ∈ name :: seen) ↔ (p.1 ∈ seen) := by
        simp [List.mem_cons, hp]
      rw [if_congr hiff rfl rfl]
      have hrec := ih hlk
      simp only [pendWeight] at hrec
      omega

theorem resolveMany_total (disk : Registry)
    (hclosed : ∀ p ∈ disk, ∀ d ∈ getDeps p.2, d ∈ regNames disk) (f : Nat) :
    ∀ (l : List String) (st : RState),
      (∀ n ∈ l, n ∈ regNames disk) →
      pendWeight disk st.seen + l.length + 1 ≤ f →
      ∃ st2, resolveMany disk f l st = Except.ok st2 := by
  induction f with
  | zero => intro l st _ hf; omega
  | succ f ih =>
    intro l st hl hf
    cases l with
    | nil => exact ⟨st, rfl⟩
    | cons name rest =>
      rw [resolveMany_succ_cons]
      simp only [List.length_cons] at hf
      by_cases hseen : name ∈ st.seen
      · rw [if_pos hseen]
        exact ih rest st (fun n hn => hl n (List.mem_cons_of_mem _ hn)) (by omega)
      · rw [if_neg hseen]
        obtain ⟨m, hm⟩ := lookup_isSome_of_mem disk name (hl name (List.mem_cons_self _ _))
        simp only [hm]
        have hdepsn : ∀ d ∈ getDeps m, d ∈ regNames disk := fun d hd =>
          hclosed (name, m) (lookup_mem disk name m hm) d hd
        have hdrop := pendWeight_drop disk st.seen name m hm hseen
        obtain ⟨stMid, hMid⟩ := ih (getDeps m) ⟨name :: st.seen, st.res⟩ hdepsn (by
          show pendWeight disk (name :: st.seen) + (getDeps m).length + 1 ≤ f
          omega)
        simp only [hMid]
        have hB := bpost_holds disk f _ _ _ hMid
        have hmono := pendWeight_mono disk (name :: st.seen) stMid.seen
          (fun x hx => hB.seen_mono x hx)
        exact ih rest ⟨stMid.seen, stMid.res ++ [name]⟩
          (fun n hn => hl n (List.mem_cons_of_mem _ hn))
          (by show pendWeight disk stMid.seen + rest.length + 1 ≤ f; omega)

/-- Claim C4: on every module set whose names and declared dependencies
all exist on disk — dependency cycles included — `resolve_dependencies`
terminates successfully and raises no cycle error; a module re-encountered
during traversal (already in `seen`, which is marked before recursing into
dependencies) is silently skipped. -/
theorem c4_cycle_tolerant_termination :
    (∀ (disk : Registry) (requested : List String),
       (∀ r ∈ requested, r ∈ regNames disk) →
       (∀ p ∈ disk, ∀ d ∈ getDeps p.2, d ∈ regNames disk) →
       ∃ order, resolve_dependencies disk requested = Except.ok order)
    ∧ (∀ (disk : Registry) (f : Nat) (name : String) (rest : List String) (st : RState),
       name ∈ st.seen →
       resolveMany disk (f + 1) (name :: rest) st = resolveMany disk f rest st) := by
  constructor
  · intro disk requested hreq hclosed
    have hf : pendWeight disk (RState.mk [] []).seen + requested.length + 1
        ≤ resolveFuel disk requested := by
      show pendWeight disk [] + requested.length + 1 ≤ resolveFuel disk requested
      simp only [resolveFuel]
      omega
    obtain ⟨st2, h2⟩ := resolveMany_total disk hclosed (resolveFuel disk requested)
      requested ⟨[], []⟩ hreq hf
    refine ⟨st2.res, ?_⟩
    unfold resolve_dependencies
    simp only [h2]
  · intro disk f name rest st h
    rw [resolveMany_succ_cons, if_pos h]

/-- Claim C4 witness: the two-module cycle `a -> b -> a` resolves without
error, and a seen module is skipped. -/
theorem c4_cycle_tolerant_termination_witness :
    (∃ order, resolve_dependencies diskW4 ["a"] = Except.ok order)
    ∧ resolveMany diskW4 1 ["b"] ⟨["b", "a"], []⟩ = resolveMany diskW4 0 [] ⟨["b", "a"], []⟩ :=
  ⟨c4_cycle_tolerant_termination.1 diskW4 ["a"] (by decide) (by decide),
   c4_cycle_tolerant_termination.2 diskW4 0 ("b") [] ⟨["b", "a"], []⟩ (by decide)⟩

/-! ## Claim C3 -/

theorem resolveMany_fuel_mono (disk : Registry) (f2 : Nat) :
    ∀ (f1 : Nat) (l : List String) (st st2 : RState),
      f1 ≤ f2 → resolveMany disk f1 l st = Except.ok st2 →
      resolveMany disk f2 l st = Except.ok st2 := by
  induction f2 with
  | zero =>
    intro f1 l st st2 hle h
    have : f1 = 0 := Nat.le_zero.1 hle
    subst this
    exact h
  | succ f2 ih =>
    intro f1 l st st2 hle h
    cases f1 with
    | zero =>
      cases l with
      | nil =>
        simp only [resolveMany, Except.ok.injEq] at h ⊢
        exact h
      | cons a l2 => simp [resolveMany] at h
    | succ f1 =>
      cases l with
      | nil =>
        simp only [resolveMany, Except.ok.injEq] at h ⊢
        exact h
      | cons name rest =>
        rw [resolveMany_succ_cons] at h ⊢
        have hle2 : f1 ≤ f2 := Nat.le_of_succ_le_succ hle
        by_cases hseen : name ∈ st.seen
        · rw [if_pos hseen] at h ⊢
          exact ih f1 rest st st2 hle2 h
        · rw [if_neg hseen] at h ⊢
          cases hlk : lookupMod disk name with
          | none => simp only [hlk] at h; exact absurd h (by simp)
          | some m =>
            simp only [hlk] at h ⊢
            cases hd : resolveMany disk f1 (getDeps m) ⟨name :: st.seen, st.res⟩ with
            | error e => simp only [hd] at h; exact absurd h (by simp)
            | ok stMid =>
              simp only [hd] at h
              have hd2 := ih f1 _ _ _ hle2 hd
              simp only [hd2]
              exact ih f1 _ _ _ hle2 h

theorem resolveMany_append (disk : Registry) (f : Nat) :
    ∀ (l1 l2 : List String) (st st2 : RState),
      resolveMany disk f (l1 ++ l2) st = Except.ok st2 →
      ∃ stM, resolveMany disk f l1 st = Except.ok stM ∧
        resolveMany disk f l2 stM = Except.ok st2 := by
  induction f with
  | zero =>
    intro l1 l2 st st2 h
    cases l1 with
    | nil =>
      cases l2 with
      | nil => exact ⟨st, rfl, h⟩
      | cons a l => simp [resolveMany] at h
    | cons a l => simp [resolveMany] at h
  | succ f ih =>
    intro l1 l2 st st2 h
    cases l1 with
    | nil => exact ⟨st, rfl, h⟩
    | cons name rest =>
      rw [List.cons_append, resolveMany_succ_cons] at h
      rw [resolveMany_succ_cons]
      by_cases hseen : name ∈ st.seen
      · rw [if_pos hseen] at h ⊢
        obtain ⟨stM, h1, h2⟩ := ih rest l2 st st2 h
        exact ⟨stM, h1, resolveMany_fuel_mono disk (f + 1) f l2 stM st2 (Nat.le_succ f) h2⟩
      · rw [if_neg hseen] at h ⊢
        cases hlk : lookupMod disk name with
        | none => simp only [hlk] at h; exact absurd h (by simp)
        | some m =>
          simp only [hlk] at h ⊢
          cases hd : resolveMany disk f (getDeps m) ⟨name :: st.seen, st.res⟩ with
          | error e => simp only [hd] at h; exact absurd h (by simp)
          | ok stMid =>
            simp only [hd] at h ⊢
            obtain ⟨stM, h1, h2⟩ := ih rest l2 _ st2 h
            exact ⟨stM, h1, resolveMany_fuel_mono disk (f + 1) f l2 stM st2 (Nat.le_succ f) h2⟩

theorem append_singleton_cases {α : Type} (r : List α) (x : α) (pre : List α) (mm : α)
    (post : List α) (h : r ++ [x] = pre ++ mm :: post) :
    (pre = r ∧ mm = x ∧ post = []) ∨
      ∃ post0, post = post0 ++ [x] ∧ r = pre ++ mm :: post0 := by
  rcases List.eq_nil_or_concat post with rfl | ⟨post0, y, rfl⟩
  · obtain ⟨h3, h4⟩ := List.append_inj' h (by simp)
    refine Or.inl ⟨h3.symm, ?_, rfl⟩
    simpa using h4.symm
  · rw [List.concat_eq_append] at h
    rw [show pre ++ mm :: (post0 ++ [y]) = (pre ++ mm :: post0) ++ [y] by simp] at h
    obtain ⟨h3, h4⟩ := List.append_inj' h (by simp)
    have hyx : x = y := by simpa using h4
    subst hyx
    exact Or.inr ⟨post0, by rw [List.concat_eq_append], h3⟩

theorem ares_holds (disk : Registry) (hacy : Acyclic disk) (f : Nat) :
    ∀ (l : List String) (st st2 : RState) (stack : List String),
      resolveMany disk f l st = Except.ok st2 →
      (∀ x ∈ st.seen, x ∉ st.res → x ∈ stack) →
      (∀ s ∈ stack, ∀ d ∈ l, Relation.TransGen (resStep disk) s d) →
      (∀ x ∈ st.res, x ∈ st.seen) →
      (∀ d ∈ l, d ∈ st2.res) ∧
        (DepsBefore disk st.res → DepsBefore disk st2.res) := by
  induction f with
  | zero =>
    intro l st st2 stack h _ _ _
    cases l with
    | nil =>
      simp only [resolveMany, Except.ok.injEq] at h
      subst h
      exact ⟨fun d hd => absurd hd (List.not_mem_nil d), fun hdb => hdb⟩
    | cons a l2 => simp [resolveMany] at h
  | succ f ih =>
    intro l st st2 stack h hH1 hH2 hsub
    cases l with
    | nil =>
      simp only [resolveMany, Except.ok.injEq] at h
      subst h
      exact ⟨fun d hd => absurd hd (List.not_mem_nil d), fun hdb => hdb⟩
    | cons name rest =>
      rw [resolveMany_succ_cons] at h
      by_cases hseen : name ∈ st.seen
      · rw [if_pos hseen] at h
        have hnameres : name ∈ st.res := by
          by_contra hc
          have hst := hH1 name hseen hc
          exact hacy name (hH2 name hst name (List.mem_cons_self _ _))
        have hrec := ih rest st st2 stack h hH1
          (fun s hs d hd => hH2 s hs d (List.mem_cons_of_mem _ hd)) hsub
        refine ⟨?_, hrec.2⟩
        intro d hd
        rcases List.mem_cons.1 hd with rfl | hd2
        · have hB := bpost_holds disk f rest st st2 h
          obtain ⟨r, hr, _⟩ := hB.res_mono
          rw [hr]
          exact List.mem_append_left _ hnameres
        · exact hrec.1 d hd2
      · rw [if_neg hseen] at h
        cases hlk : lookupMod disk name with
        | none => simp only [hlk] at h; exact absurd h (by simp)
        | some m =>
          simp only [hlk] at h
          cases hd : resolveMany disk f (getDeps m) ⟨name :: st.seen, st.res⟩ with
          | error e => simp only [hd] at h; exact absurd h (by simp)
          | ok stMid =>
            simp only [hd] at h
            have hB1 := bpost_holds disk f _ _ _ hd
            have hB2 := bpost_holds disk f _ _ _ h
            have hA1 := ih (getDeps m) ⟨name :: st.seen, st.res⟩ stMid (name :: stack) hd
              (by
                intro x hx hxr
                rcases List.mem_cons.1 hx with rfl | hx2
                · exact List.mem_cons_self _ _
                · exact List.mem_cons_of_mem _ (hH1 x hx2 hxr))
              (by
                intro s hs d2 hd2
                rcases List.mem_cons.1 hs with rfl | hs2
                · exact Relation.TransGen.single ⟨m, hlk, hd2⟩
                · exact Relation.TransGen.trans
                    (hH2 s hs2 name (List.mem_cons_self _ _))
                    (Relation.TransGen.single ⟨m, hlk, hd2⟩))
              (fun x hx => List.mem_cons_of_mem _ (hsub x hx))
            have hA2 := ih rest ⟨stMid.seen, stMid.res ++ [name]⟩ st2 stack h
              (by
                intro x hx hxr
                have hx1 : x ∉ stMid.res := fun hc => hxr (List.mem_append_left _ hc)
                have hxname : x ≠ name := fun he => hxr (by simp [he])
                have hi := (hB1.inprog x).1 ⟨hx, hx1⟩
                rcases List.mem_cons.1 hi.1 with rfl | hx3
                · exact absurd rfl hxname
                · exact hH1 x hx3 hi.2)
              (fun s hs d2 hd2 => hH2 s hs d2 (List.mem_cons_of_mem _ hd2))
              (by
                intro x hx
                rcases List.mem_append.1 hx with h1 | h2
                · obtain ⟨r1, hr1, hr1p⟩ := hB1.res_mono
                  rw [hr1] at h1
                  rcases List.mem_append.1 h1 with h3 | h4
                  · exact hB1.seen_mono x (List.mem_cons_of_mem _ (hsub x h3))
                  · exact (hr1p x h4).2
                · rw [List.mem_singleton] at h2
                  subst h2
                  exact hB1.seen_mono x (List.mem_cons_self _ _))
            refine ⟨?_, ?_⟩
            · intro d2 hd2
              rcases List.mem_cons.1 hd2 with rfl | hd3
              · obtain ⟨r2, hr2, _⟩ := hB2.res_mono
                rw [hr2]
                exact List.mem_append_left _
                  (List.mem_append_right _ (List.mem_singleton.2 rfl))
              · exact hA2.1 d2 hd3
            · intro hdb
              have hdbMid := hA1.2 hdb
              have hdbB : DepsBefore disk (stMid.res ++ [name]) := by
                intro pre mm post hsplit d2 hd2
                rcases append_singleton_cases stMid.res name pre mm post hsplit with
                  ⟨hpre, hmm, _⟩ | ⟨post0, _, hres⟩
                · have hdeq : depsName disk mm = getDeps m := by
                    rw [hmm]
                    simp [depsName, hlk]
                  rw [hdeq] at hd2
                  rw [hpre]
                  exact hA1.1 d2 hd2
                · exact hdbMid pre mm post0 hres d2 hd2
              exact hA2.2 hdbB

/-- Claim C3: on an acyclic dependency graph, a successful resolution
contains each module of the transitive closure of the requested names
exactly once (no duplicates, membership equals reachability), every
declared dependency of a listed module appears strictly earlier, and the
requested names are processed in the given order: resolving an extended
request list reproduces the original order as a prefix. -/
theorem c3_resolution_topological (disk : Registry) (requested order : List String)
    (hr : resolve_dependencies disk requested = Except.ok order)
    (hacy : Acyclic disk) :
    order.Nodup
    ∧ (∀ x, x ∈ order ↔ ∃ r ∈ requested, Relation.ReflTransGen (resStep disk) r x)
    ∧ DepsBefore disk order
    ∧ (∀ (more order2 : List String),
        resolve_dependencies disk (requested ++ more) = Except.ok order2 →
        ∃ tail2, order2 = order ++ tail2) := by
  unfold resolve_dependencies at hr
  cases hrm : resolveMany disk (resolveFuel disk requested) requested ⟨[], []⟩ with
  | error e => simp only [hrm] at hr; exact absurd hr (by simp)
  | ok stF =>
    simp only [hrm, Except.ok.injEq] at hr
    subst hr
    have hB := bpost_holds disk _ _ _ _ hrm
    have hA := ares_holds disk hacy _ requested ⟨[], []⟩ stF [] hrm
      (fun x hx _ => absurd hx (List.not_mem_nil x))
      (fun s hs => absurd hs (List.not_mem_nil s))
      (fun x hx => absurd hx (List.not_mem_nil x))
    have hInv := hB.inv_pres
      { nodup := List.nodup_nil
        res_seen := fun x hx => absurd hx (List.not_mem_nil x)
        closed := fun mm hmm _ _ => absurd hmm (List.not_mem_nil mm) }
    have hseenres : ∀ x ∈ stF.seen, x ∈ stF.res := by
      intro x hx
      by_contra hc
      exact absurd ((hB.inprog x).1 ⟨hx, hc⟩).1 (List.not_mem_nil x)
    have hext : ∀ x y, Relation.ReflTransGen (resStep disk) x y →
        x ∈ stF.res → y ∈ stF.res := by
      intro x y hxy
      induction hxy with
      | refl => exact fun hx => hx
      | tail _ h2 ihh =>
        intro hx
        have hb := ihh hx
        obtain ⟨mo, hmo, hmem⟩ := h2
        refine hseenres _ (hInv.closed _ hb _ ?_)
        simp only [depsName, hmo]
        exact hmem
    refine ⟨hInv.nodup, ?_, ?_, ?_⟩
    · intro x
      constructor
      · intro hx
        rcases hB.seen_reach x (hInv.res_seen x hx) with h1 | h2
        · exact absurd h1 (List.not_mem_nil x)
        · exact h2
      · rintro ⟨r, hrq, hreach⟩
        exact hext r x hreach (hA.1 r hrq)
    · apply hA.2
      intro pre mm post hsplit d hd
      exact absurd hsplit (by simp)
    · intro more order2 h2
      unfold resolve_dependencies at h2
      cases hrm2 : resolveMany disk (resolveFuel disk (requested ++ more))
          (requested ++ more) ⟨[], []⟩ with
      | error e => simp only [hrm2] at h2; exact absurd h2 (by simp)
      | ok stF2 =>
        simp only [hrm2, Except.ok.injEq] at h2
        subst h2
        obtain ⟨stM, hx1, hx2⟩ :=
          resolveMany_append disk _ requested more ⟨[], []⟩ stF2 hrm2
        have hbig1 := resolveMany_fuel_mono disk
          (resolveFuel disk requested + resolveFuel disk (requested ++ more))
          (resolveFuel disk requested) requested ⟨[], []⟩ stF (by omega) hrm
        have hbig2 := resolveMany_fuel_mono disk
          (resolveFuel disk requested + resolveFuel disk (requested ++ more))
          (resolveFuel disk (requested ++ more)) requested ⟨[], []⟩ stM (by omega) hx1
        have hMeq : stM = stF := Except.ok.inj (hbig2.symm.trans hbig1)
        rw [hMeq] at hx2
        obtain ⟨r2, hr2, _⟩ := (bpost_holds disk _ _ _ _ hx2).res_mono
        exact ⟨r2, hr2⟩

theorem acyclic_of_rank (disk : Registry) (rank : String → Nat)
    (h : ∀ a b, resStep disk a b → rank b < rank a) : Acyclic disk := by
  intro a hcyc
  have hlt : ∀ x y, Relation.TransGen (resStep disk) x y → rank y < rank x := by
    intro x y hxy
    induction hxy with
    | single h1 => exact h _ _ h1
    | tail _ h2 ihh => exact Nat.lt_trans (h _ _ h2) ihh
  exact Nat.lt_irrefl _ (hlt a a hcyc)

theorem acyclic_diskW3 : Acyclic diskW3 := by
  apply acyclic_of_rank diskW3 (fun n => if n = "app" then 1 else 0)
  intro a b hstep
  obtain ⟨mo, hmo, hmem⟩ := hstep
  have hpm := lookup_mem diskW3 a mo hmo
  simp only [diskW3, List.mem_cons, Prod.mk.injEq, List.not_mem_nil, or_false] at hpm
  rcases hpm with ⟨ha, hmo2⟩ | ⟨ha, hmo2⟩ | ⟨ha, hmo2⟩
  · rw [hmo2] at hmem
    exact absurd hmem (by simp [simpleModule, getDeps])
  · rw [hmo2] at hmem
    have hb : b = "db" := by simpa [simpleModule, getDeps] using hmem
    rw [ha, hb]
    decide
  · rw [hmo2] at hmem
    exact absurd hmem (by simp [simpleModule, getDeps])

/-- Claim C3 witness: the worked example of the spec resolves `[app, web]`
on an acyclic graph to `[db, app, web]`; the conclusions of the theorem
hold there. -/
theorem c3_resolution_topological_witness :
    (["db", "app", "web"] : List String).Nodup
    ∧ (("db" : String) ∈ (["db", "app", "web"] : List String)
        ↔ ∃ r ∈ (["app", "web"] : List String),
            Relation.ReflTransGen (resStep diskW3) r ("db"))
    ∧ DepsBefore diskW3 ["db", "app", "web"] := by
  have h := c3_resolution_topological diskW3 ["app", "web"] ["db", "app", "web"]
    (by rfl) acyclic_diskW3
  exact ⟨h.1, h.2.1 ("db"), h.2.2.1⟩

/-! ## Claim C8 -/

theorem buildServices_keys (reg : Registry) (l : List String) (ss : List (String × Service))
    (h : buildServices reg l = Except.ok ss) : ss.map Prod.fst = l := by
  induction l generalizing ss with
  | nil =>
    simp only [buildServices, Except.ok.injEq] at h
    subst h
    rfl
  | cons n rest ih =>
    simp only [buildServices] at h
    cases hg : generate_service reg n with
    | error e => simp only [hg] at h; simp at h
    | ok s =>
      simp only [hg] at h
      cases hb : buildServices reg rest with
      | error e => simp only [hb] at h; simp at h
      | ok restS =>
        simp only [hb, Except.ok.injEq] at h
        subst h
        simp [ih restS hb]

/-- Claim C8: the services map of a generated manifest has exactly the
resolved module names as keys, in resolution order. -/
theorem c8_services_keys (disk : Registry) (requested : List String)
    (order : List String) (c : Compose)
    (hr : resolve_dependencies disk requested = Except.ok order)
    (hc : generate disk requested = Except.ok c) :
    c.services.map Prod.fst = order := by
  unfold generate at hc
  simp only [hr] at hc
  cases hb : buildServices (loadedReg disk order) order with
  | error e => simp only [hb] at hc; simp at hc
  | ok services =>
    simp only [hb, Except.ok.injEq] at hc
    subst hc
    exact buildServices_keys _ _ _ hb

/-! ## Claim C5 -/

theorem resolve_ok_found (disk : Registry) (requested order : List String)
    (hr : resolve_dependencies disk requested = Except.ok order) :
    ∀ n ∈ order, ∃ m, lookupMod disk n = some m := by
  unfold resolve_dependencies at hr
  cases hrm : resolveMany disk (resolveFuel disk requested) requested ⟨[], []⟩ with
  | error e => simp only [hrm] at hr; exact absurd hr (by simp)
  | ok stF =>
    simp only [hrm, Except.ok.injEq] at hr
    subst hr
    intro n hn
    have hB := bpost_holds disk _ _ _ _ hrm
    rcases hB.res_found n hn with h1 | h2
    · exact absurd h1 (List.not_mem_nil n)
    · exact h2

theorem lookup_loadedReg (disk : Registry) (order : List String) (n : String) (m : ModuleData)
    (hn : n ∈ order) (hm : lookupMod disk n = some m) :
    lookupMod (loadedReg disk order) n = some m := by
  induction order with
  | nil => cases hn
  | cons a rest ih =>
    cases ha : lookupMod disk a with
    | none =>
      rcases List.mem_cons.1 hn with rfl | h2
      · rw [hm] at ha; cases ha
      · have : loadedReg disk (a :: rest) = loadedReg disk rest := by
          simp [loadedReg, List.filterMap_cons, ha]
        rw [this]
        exact ih h2
    | some ma =>
      have hstep : loadedReg disk (a :: rest) = (a, ma) :: loadedReg disk rest := by
        simp [loadedReg, List.filterMap_cons, ha]
      rw [hstep]
      by_cases hna : a = n
      · subst hna
        rw [hm] at ha
        show alistGet ((a, ma) :: loadedReg disk rest) a = some m
        simp [alistGet]
        exact (Option.some.inj ha).symm
      · rcases List.mem_cons.1 hn with rfl | h2
        · exact absurd rfl hna
        · show alistGet ((a, ma) :: loadedReg disk rest) n = some m
          simp only [alistGet, if_neg hna]
          exact ih h2

theorem buildServices_first_missing (reg : Registry) (l : List String)
    (hfound : ∀ n ∈ l, ∃ m, lookupMod reg n = some m)
    (hmiss : ∃ n ∈ l, ∃ m, lookupMod reg n = some m ∧ (dockerOf m).image = none) :
    ∃ n0 m0, n0 ∈ l ∧ lookupMod reg n0 = some m0 ∧ (dockerOf m0).image = none ∧
      buildServices reg l
        = Except.error ("Module " ++ n0 ++ " missing required docker.image field") := by
  induction l with
  | nil =>
    obtain ⟨n, hn, _⟩ := hmiss
    exact absurd hn (List.not_mem_nil n)
  | cons n rest ih =>
    obtain ⟨m, hm⟩ := hfound n (List.mem_cons_self _ _)
    cases hi : (dockerOf m).image with
    | none =>
      refine ⟨n, m, List.mem_cons_self _ _, hm, hi, ?_⟩
      simp only [buildServices]
      rw [generate_service_missing_image reg n m hm hi]
    | some img =>
      have hmiss2 : ∃ n2 ∈ rest, ∃ m2, lookupMod reg n2 = some m2 ∧
          (dockerOf m2).image = none := by
        obtain ⟨n2, hn2, m2, hm2, hi2⟩ := hmiss
        rcases List.mem_cons.1 hn2 with rfl | h2
        · rw [hm] at hm2
          rw [(Option.some.inj hm2).symm] at hi2
          rw [hi] at hi2
          cases hi2
        · exact ⟨n2, h2, m2, hm2, hi2⟩
      obtain ⟨n0, m0, hn0, hm0, hi0, hb⟩ :=
        ih (fun x hx => hfound x (List.mem_cons_of_mem _ hx)) hmiss2
      refine ⟨n0, m0, List.mem_cons_of_mem _ hn0, hm0, hi0, ?_⟩
      simp only [buildServices]
      rw [generate_service_eq reg n m img hm hi]
      simp only [hb]

/-- Claim C5: if any module of the resolved order lacks `docker.image`,
the run fails with an error naming such a module, and no output file is
written (the write list of the pipeline is empty). -/
theorem c5_missing_image_aborts (disk : Registry) (requested order : List String)
    (out : String)
    (hr : resolve_dependencies disk requested = Except.ok order)
    (hmiss : ∃ n ∈ order, ∃ m, lookupMod disk n = some m ∧ (dockerOf m).image = none) :
    ∃ n0 m0, n0 ∈ order ∧ lookupMod disk n0 = some m0 ∧ (dockerOf m0).image = none ∧
      runPipeline disk requested out
        = (Except.error ("Module " ++ n0 ++ " missing required docker.image field"), []) := by
  have hfound : ∀ n ∈ order, ∃ m, lookupMod (loadedReg disk order) n = some m := by
    intro n hn
    obtain ⟨m, hm⟩ := resolve_ok_found disk requested order hr n hn
    exact ⟨m, lookup_loadedReg disk order n m hn hm⟩
  have hmiss2 : ∃ n ∈ order, ∃ m, lookupMod (loadedReg disk order) n = some m ∧
      (dockerOf m).image = none := by
    obtain ⟨n, hn, m, hm, hi⟩ := hmiss
    exact ⟨n, hn, m, lookup_loadedReg disk order n m hn hm, hi⟩
  obtain ⟨n0, m0, hn0, hm0, hi0, hb⟩ :=
    buildServices_first_missing (loadedReg disk order) order hfound hmiss2
  have hm0disk : lookupMod disk n0 = some m0 := by
    obtain ⟨m1, hm1⟩ := resolve_ok_found disk requested order hr n0 hn0
    have := lookup_loadedReg disk order n0 m1 hn0 hm1
    rw [hm0] at this
    rw [hm1, Option.some.inj this]
  refine ⟨n0, m0, hn0, hm0disk, hi0, ?_⟩
  unfold runPipeline generate
  simp only [hr, hb]

/-- Claim C5 witness: the concrete `broken` module (no `docker.image`)
aborts the pipeline with the error naming it, and nothing is written. -/
theorem c5_missing_image_aborts_witness :
    ∃ n0 m0, n0 ∈ ["db", "broken"] ∧ lookupMod diskW5 n0 = some m0 ∧
      (dockerOf m0).image = none ∧
      runPipeline diskW5 ["broken", "db"] ("docker-compose.yml")
        = (Except.error ("Module " ++ n0 ++ " missing required docker.image field"), []) :=
  c5_missing_image_aborts diskW5 ["broken", "db"] ["db", "broken"]
    ("docker-compose.yml") (by rfl)
    ⟨"broken", by decide, brokenModW5, by rfl, by rfl⟩

/-- Claim C8 witness: the worked example of the spec, `[app, web]` resolving to
`[db, app, web]`, yields exactly those service keys in that order. -/
theorem c8_services_keys_witness :
    resolve_dependencies diskW3 ["app", "web"] = Except.ok ["db", "app", "web"] ∧
    ∃ c, generate diskW3 ["app", "web"] = Except.ok c ∧
      c.services.map Prod.fst = ["db", "app", "web"] := by
  refine ⟨by rfl, ?_⟩
  cases hg : generate diskW3 ["app", "web"] with
  | error e =>
    have hok : (generate diskW3 ["app", "web"]).isOk = true := by rfl
    rw [hg] at hok
    simp [Except.isOk, Except.toBool] at hok
  | ok c =>
    exact ⟨c, rfl, c8_services_keys diskW3 ["app", "web"] ["db", "app", "web"] c (by rfl) hg⟩

end Ahab
